import Mathlib

/-!
Verification of the compute-pcrs core: a shallow embedding of the
register-value compiler (`src/lib/src/pcrs.rs`) and of the combinatorial
event-combination engine (`src/lib/src/tpmevents/combine.rs`), together
with theorems settling the specification claims.

Modelling conventions:
* Machine integers (`u8`, `u32`, `u64`) are modelled as `Nat`; the only
  arithmetic performed on them is bitwise (`&&&`, `|||`, complement
  restricted to the mask's own bits), which never overflows.
* Byte strings (`Vec<u8>` digests) are `List Nat`.
* The SHA-256 hash is an external crate; it enters every statement as an
  abstract parameter `H : List Nat → List Nat` applied to the
  concatenation `old_digest ++ event.hash`, exactly as the source feeds
  the hasher.
* Rust `panic!` aborts are modelled as `Except.error` values; a function
  that returns `Option<T>` and may also panic is modelled as
  `Except Err (Option T)`.
-/

namespace ComputePcrs

/-- One recorded measurement event (struct `TPMEvent` of the `tpmevents`
module): identifier, owning register number, digest and name.  The
`TPMEventID` enumeration lives in a module outside the sources; its
tokens are modelled as `Nat`. -/
structure TPMEvent where
  name : String
  pcr : Nat
  hash : List Nat
  id : Nat
deriving DecidableEq, Repr

/-- One (name, digest) contribution record (struct `Part` of `pcrs.rs`). -/
structure Part where
  name : String
  hash : List Nat
deriving DecidableEq, Repr

/-- A compiled register (struct `Pcr` of `pcrs.rs`). -/
structure Pcr where
  id : Nat
  value : List Nat
  parts : List Part
deriving DecidableEq, Repr

/-- `Part::from(&TPMEvent)` of `pcrs.rs`. -/
def Part.ofEvent (event : TPMEvent) : Part :=
  { name := event.name, hash := event.hash }

/-- The 32-byte all-zero initial digest `PCR_INIT_VALUE` of `pcrs.rs`. -/
def PCR_INIT_VALUE : List Nat := List.replicate 32 0

/-- Panic conditions of the register compiler: indexing `events[0]` on an
empty vector, and the `unexpected pcr#a while compiling pcr#b` panic. -/
inductive PcrError where
  | emptyEvents : PcrError
  | mismatchedRegister (unexpected : Nat) (compiling : Nat) : PcrError
deriving DecidableEq, Repr

/-- The `for event in events` loop of `Pcr::compile_from`: starting from
`acc`, check each event's register against `compiled_pcr` and extend the
digest by `result = Sha256(result || event.hash)`. -/
def compile_fold (H : List Nat → List Nat) (compiled_pcr : Nat) (acc : List Nat) :
    List TPMEvent → Except PcrError (List Nat)
  | [] => .ok acc
  | event :: rest =>
    if event.pcr ≠ compiled_pcr then
      .error (.mismatchedRegister event.pcr compiled_pcr)
    else
      compile_fold H compiled_pcr (H (acc ++ event.hash)) rest

/-- `Pcr::compile_from` of `pcrs.rs`: compile one register from a vector
of events that must all carry the register number of the first event. -/
def Pcr.compile_from (H : List Nat → List Nat) (events : List TPMEvent) : Except PcrError Pcr :=
  match events with
  | [] => .error .emptyEvents
  | e0 :: _ => do
    let value ← compile_fold H e0.pcr PCR_INIT_VALUE events
    pure { id := e0.pcr, value := value, parts := events.map Part.ofEvent }

/-- Itertools `unique()`: keep the first occurrence of each element,
preserving order.  `seen` accumulates the elements already emitted. -/
def uniqueAux {α : Type} [DecidableEq α] (seen : List α) : List α → List α
  | [] => []
  | x :: xs => if x ∈ seen then uniqueAux seen xs else x :: uniqueAux (x :: seen) xs

/-- First-occurrence deduplication, as itertools `unique()`. -/
def uniqueList {α : Type} [DecidableEq α] (l : List α) : List α :=
  uniqueAux [] l

/-- `compile_pcrs` of `pcrs.rs`: partition a mixed-register event vector
by register number (first-seen order) and compile each group. -/
def compile_pcrs (H : List Nat → List Nat) (events : List TPMEvent) :
    Except PcrError (List Pcr) :=
  let pcrs := uniqueList (events.map (fun e => e.pcr))
  pcrs.mapM (fun n => Pcr.compile_from H (events.filter (fun e => e.pcr == n)))

/-- The digest obtained by chaining `H` over `events` starting from `d`. -/
def chainDigest (H : List Nat → List Nat) (d : List Nat) (events : List TPMEvent) : List Nat :=
  events.foldl (fun acc e => H (acc ++ e.hash)) d


/-- Panic and abort conditions of the combination engine.
`newEventGroupAlg` is the `panic!("NEW EVENT GROUP DETECTION ALG")` hit
whenever the `conflicts` vector is non-empty; `eventGroupConflict` is the
`panic!("Event group conflict hit")`; `rootNextUnwrap` is the `unwrap()`
of `TPMEventID::PcrRootNodeEvent.next()` when the oracle's canonical
order is empty; `pcrPanic` wraps a register-compiler panic reached from
`compile_pcrs`. -/
inductive CombineError where
  | newEventGroupAlg : CombineError
  | eventGroupConflict : CombineError
  | rootNextUnwrap : CombineError
  | pcrPanic (e : PcrError) : CombineError
deriving DecidableEq, Repr

/-- Modelled from the spec: the `tree` module is not among the sources.
Spec §4.3: a `BranchTreeNode` holds one value and an ordered list of
child nodes. -/
inductive EventNode (α : Type) where
  | mk : α → List (EventNode α) → EventNode α

/-- The value held by a node. -/
def EventNode.value {α : Type} : EventNode α → α
  | .mk v _ => v

/-- The ordered children of a node. -/
def EventNode.children {α : Type} : EventNode α → List (EventNode α)
  | .mk _ cs => cs

/-- Modelled from the spec: `add_child` appends one child subtree. -/
def EventNode.add_child {α : Type} : EventNode α → EventNode α → EventNode α
  | .mk v cs, c => .mk v (cs ++ [c])

mutual
/-- Modelled from the spec: `branches()` of the missing `tree` module
produces every root-to-leaf path of the node, each path being the
ordered list of values met; a leaf is a node with no children. -/
def EventNode.branches {α : Type} : EventNode α → List (List α)
  | .mk v cs =>
    match cs with
    | [] => [[v]]
    | c :: cs' => (branchesAll (c :: cs')).map (fun b => v :: b)

/-- Root-to-leaf paths of a forest: the concatenation of each node's
branches in order (`iter().flat_map(|t| t.branches())`). -/
def branchesAll {α : Type} : List (EventNode α) → List (List α)
  | [] => []
  | n :: ns => n.branches ++ branchesAll ns
end

/-- `partially_owned` of `combine.rs`: `groups & owner != 0`. -/
def partially_owned (owner : Nat) (groups : Nat) : Bool :=
  groups &&& owner != 0

/-- `fully_owned` of `combine.rs`: `(owner & groups) == groups`. -/
def fully_owned (owner : Nat) (groups : Nat) : Bool :=
  owner &&& groups == groups

/-- `other_owns_partially` of `combine.rs`: some image other than
`owner_index` partially owns a bit of `event_groups`. -/
def other_owns_partially (owner_index : Nat) (owned_groups : List Nat)
    (event_groups : Nat) : Bool :=
  ((owned_groups.enum.filter
      (fun p => p.1 != owner_index && partially_owned p.2 event_groups)).length) != 0

/-- `other_owns_fully` of `combine.rs`. -/
def other_owns_fully (owner_index : Nat) (owned_groups : List Nat)
    (event_groups : Nat) : Bool :=
  ((owned_groups.enum.filter
      (fun p => p.1 != owner_index && fully_owned p.2 event_groups)).length) != 0

/-- The `u32` expression `!owned & event_groups` of `can_own` (the group
bits this identifier requires that the image has not yet committed).  On
`Nat` the same bits are `event_groups ^^^ (event_groups &&& owned)`. -/
def missingBits (owned event_groups : Nat) : Nat :=
  event_groups ^^^ (event_groups &&& owned)

/-- `can_own` of `combine.rs`: the image at `owner_index` may own the
identifier iff no other image partially owns one of its missing bits. -/
def can_own (owner_index : Nat) (owned_groups : List Nat) (event_groups : Nat) : Bool :=
  !other_owns_partially owner_index owned_groups
    (missingBits (owned_groups.getD owner_index 0) event_groups)

/-- The mutable state of the `for (i, opt) in opts.iter().enumerate()`
loop of `event_subtree`: recorded divergences (event value and per-image
mask vector), the `events_added` deduplication map (event value to its
global image indices and divergence index), the conflicting image
indices, and the `event_required` flag. -/
structure LoopSt where
  divs : List (TPMEvent × List Nat)
  events_added : List (TPMEvent × (List Nat × Nat))
  conflicts : List Nat
  event_required : Bool
deriving Repr

/-- OR `event_groups` into entry `i` of the mask vector of the
divergence at index `d` (`masked_groups[i] |= event_groups`). -/
def updateDivAt (divs : List (TPMEvent × List Nat)) (d i event_groups : Nat) :
    List (TPMEvent × List Nat) :=
  match divs[d]? with
  | some (ev, gm) => divs.set d (ev, gm.set i (gm.getD i 0 ||| event_groups))
  | none => divs

/-- One iteration of the per-image loop of `event_subtree` for image
`iopt.1` whose candidate event is `iopt.2`. -/
def subtree_step (groups : List Nat) (event_groups : Nat) (st : LoopSt)
    (iopt : Nat × Option TPMEvent) : LoopSt :=
  match iopt.2 with
  | none => { st with event_required := false }
  | some event =>
    if can_own iopt.1 groups event_groups then
      match st.events_added.find? (fun p => p.1 == event) with
      | some (_, gids, d) =>
        { st with
          events_added := st.events_added.map
            (fun p => if p.1 == event then (p.1, (gids ++ [iopt.1], d)) else p),
          divs := updateDivAt st.divs d iopt.1 event_groups }
      | none =>
        { st with
          events_added := st.events_added ++ [(event, ([iopt.1], st.divs.length))],
          divs := updateDivAt (st.divs ++ [(event, groups)])
            st.divs.length iopt.1 event_groups }
    else if other_owns_partially iopt.1 groups event_groups
            && !other_owns_fully iopt.1 groups event_groups then
      { st with conflicts := st.conflicts ++ [iopt.1] }
    else
      st

/-- The initial loop state: no divergences, no conflicts, and
`event_required = true`. -/
def loopInit : LoopSt := ⟨[], [], [], true⟩

/-- The whole per-image loop of `event_subtree`. -/
def subtree_loop (groups : List Nat) (event_groups : Nat)
    (opts : List (Option TPMEvent)) : LoopSt :=
  (opts.enum).foldl (subtree_step groups event_groups) loopInit

/-- The divergence list actually used for tree building: the loop's
`divs`, collapsed to the single agreed event with the original `groups`
when `events_added.len() == 1 && event_required`. -/
def divsFinal (groups : List Nat) (event_groups : Nat)
    (opts : List (Option TPMEvent)) : List (TPMEvent × List Nat) :=
  let st := subtree_loop groups event_groups opts
  if st.events_added.length == 1 && st.event_required then
    st.events_added.map (fun p => (p.1, groups))
  else
    st.divs

/-- `tpm_event_id_hashmap` of `combine.rs`: index an image's events by
identifier.  `HashMap` collection lets a later duplicate win, hence the
reversed search; the data-model invariant says ids are unique anyway. -/
def tpm_event_id_hashmap (events : List TPMEvent) : Nat → Option TPMEvent :=
  fun eid => events.reverse.find? (fun e => e.id == eid)

/-- `event_subtree` of `combine.rs`.  The Event Identifier Oracle is
modelled from the spec (its `TPMEventID` successor table is not among
the sources): the list `order` carries the current identifier followed
by its successors in canonical order, so `event_id.next()` is the head
of `rest` and returns the terminal sentinel (`None`) iff `rest = []`.
`Except.error` models the two `panic!` aborts; `Except.ok none` models
returning `None` (in particular the `?` on `event_id.next()?`, which
returns `None` from the whole call — including from inside the
node-building loop, discarding any divergences recorded at the final
identifier). -/
def event_subtree (gmaskOf : Nat → Nat) (event_maps : List (Nat → Option TPMEvent)) :
    List Nat → List Nat → Except CombineError (Option (List (EventNode TPMEvent)))
  | [], _ => .ok none
  | event_id :: rest, groups =>
    let event_groups := gmaskOf event_id
    let opts := event_maps.map (fun m => m event_id)
    let st := subtree_loop groups event_groups opts
    let divs := divsFinal groups event_groups opts
    if st.conflicts.isEmpty then
      if divs.isEmpty then
        if st.event_required then .error .eventGroupConflict
        else event_subtree gmaskOf event_maps rest groups
      else
        match rest with
        | [] => .ok none
        | _ :: _ => do
          let nodes ← divs.mapM (fun dv => do
            match ← event_subtree gmaskOf event_maps rest dv.2 with
            | some children => pure (EventNode.mk dv.1 children)
            | none => pure (EventNode.mk dv.1 []))
          pure (some nodes)
    else .error .newEventGroupAlg

/-- `combine` of `combine.rs`.  `order` is the oracle's canonical
identifier order starting at `PcrRootNodeEvent`'s successor; when it is
empty the `unwrap()` of the root successor panics. -/
def combine (H : List Nat → List Nat) (gmaskOf : Nat → Nat) (order : List Nat)
    (images : List (List TPMEvent)) : Except CombineError (List (List Pcr)) :=
  let event_maps := images.map tpm_event_id_hashmap
  let groups := List.replicate images.length 0
  match order with
  | [] => .error .rootNextUnwrap
  | _ :: _ => do
    match ← event_subtree gmaskOf event_maps order groups with
    | some st => do
      let sols ← (branchesAll st).mapM
        (fun b => (compile_pcrs H b).mapError CombineError.pcrPanic)
      pure (uniqueList sols)
    | none => pure []

/-- The condition under which the loop of `event_subtree` pushes image
`p.1` onto `conflicts`: the image supplied an event it may not own while
some other image partially — but no other image fully — owns the
identifier's group bits. -/
def conflictCond (groups : List Nat) (event_groups : Nat) (p : Nat × Option TPMEvent) : Bool :=
  p.2.isSome && !can_own p.1 groups event_groups &&
    (other_owns_partially p.1 groups event_groups &&
      !other_owns_fully p.1 groups event_groups)

/-- Entrywise bitmask containment between per-image ownership vectors:
every group bit of `old` at every image index is still set in `new`. -/
def ownershipGrows (old new : List Nat) : Prop :=
  ∀ i, old.getD i 0 &&& new.getD i 0 = old.getD i 0

/-- The node construction the spec describes for the divergence list:
one node per divergence holding its event value, with children obtained
by recursing into the successor order with that divergence's ownership
state (none when the recursion returns the sentinel). -/
def nodesFromDivs (gmaskOf : Nat → Nat) (event_maps : List (Nat → Option TPMEvent))
    (order' : List Nat) : List (TPMEvent × List Nat) →
    Except CombineError (List (EventNode TPMEvent))
  | [] => .ok []
  | dv :: ds => do
    let child ← event_subtree gmaskOf event_maps order' dv.2
    let node := match child with
      | some cs => EventNode.mk dv.1 cs
      | none => EventNode.mk dv.1 []
    let others ← nodesFromDivs gmaskOf event_maps order' ds
    pure (node :: others)

/-- The register the spec's manual-splitting description produces for
register number `n`: filter the events of that register (preserving
order) and chain them from the all-zero initial digest. -/
def registerGroupPcr (H : List Nat → List Nat) (n : Nat) (events : List TPMEvent) : Pcr :=
  { id := n,
    value := chainDigest H PCR_INIT_VALUE (events.filter (fun e => e.pcr == n)),
    parts := (events.filter (fun e => e.pcr == n)).map Part.ofEvent }

lemma compile_fold_ok (H : List Nat → List Nat) (c : Nat) :
    ∀ (l : List TPMEvent) (acc : List Nat), (∀ e ∈ l, e.pcr = c) →
      compile_fold H c acc l = .ok (chainDigest H acc l) := by
  intro l
  induction l with
  | nil => intro acc _; rfl
  | cons e rest ih =>
    intro acc h
    have he : e.pcr = c := h e (List.mem_cons_self e rest)
    simp only [compile_fold, chainDigest, List.foldl_cons]
    rw [if_neg (by simp [he])]
    exact ih (H (acc ++ e.hash)) (fun x hx => h x (List.mem_cons_of_mem e hx))

lemma compile_fold_err (H : List Nat → List Nat) (c : Nat) :
    ∀ (l : List TPMEvent) (acc : List Nat), (∃ e ∈ l, e.pcr ≠ c) →
      ∃ a, compile_fold H c acc l = .error (.mismatchedRegister a c) := by
  intro l
  induction l with
  | nil => intro acc h; simp at h
  | cons e rest ih =>
    intro acc h
    by_cases he : e.pcr = c
    · have hr : ∃ x ∈ rest, x.pcr ≠ c := by
        rcases h with ⟨x, hx, hxc⟩
        rcases List.mem_cons.mp hx with h1 | h1
        · exact absurd (h1 ▸ he) hxc
        · exact ⟨x, h1, hxc⟩
      rcases ih (H (acc ++ e.hash)) hr with ⟨a, ha⟩
      exact ⟨a, by simpa [compile_fold, he] using ha⟩
    · exact ⟨e.pcr, by simp [compile_fold, he]⟩

/-- Claim C2: for every non-empty same-register event sequence,
`Pcr::compile_from` returns the register whose `value` is the left fold
`new = H(old ++ event.hash)` over the events in order starting from the
all-zero initial digest, whose `id` is the common register number, and
whose `parts` are the ordered (name, digest) projection of the events. -/
theorem claim_C2_compile_register_fold (H : List Nat → List Nat) (e0 : TPMEvent)
    (tl : List TPMEvent) (h : ∀ e ∈ e0 :: tl, e.pcr = e0.pcr) :
    Pcr.compile_from H (e0 :: tl) =
      .ok { id := e0.pcr,
            value := chainDigest H PCR_INIT_VALUE (e0 :: tl),
            parts := (e0 :: tl).map Part.ofEvent } := by
  simp [Pcr.compile_from, compile_fold_ok H e0.pcr (e0 :: tl) PCR_INIT_VALUE h]

/-- Witness for C2 at a concrete two-event register-4 input. -/
theorem claim_C2_witness :
    Pcr.compile_from (fun l => [l.length]) [⟨"A", 4, [7], 1⟩, ⟨"B", 4, [9], 2⟩] =
      .ok { id := 4,
            value := chainDigest (fun l => [l.length]) PCR_INIT_VALUE
              [⟨"A", 4, [7], 1⟩, ⟨"B", 4, [9], 2⟩],
            parts := [⟨"A", [7]⟩, ⟨"B", [9]⟩] } := by
  have h := claim_C2_compile_register_fold (fun l => [l.length])
    ⟨"A", 4, [7], 1⟩ [⟨"B", 4, [9], 2⟩] (by decide)
  simpa [Part.ofEvent] using h

/-- Claim C8: a non-empty event sequence spanning more than one register
number makes `Pcr::compile_from` fail with the mismatched-register panic
instead of returning a computed register. -/
theorem claim_C8_mismatched_register (H : List Nat → List Nat) (e0 : TPMEvent)
    (tl : List TPMEvent) (h : ∃ e ∈ e0 :: tl, e.pcr ≠ e0.pcr) :
    ∃ a b, Pcr.compile_from H (e0 :: tl) = .error (.mismatchedRegister a b) := by
  rcases compile_fold_err H e0.pcr (e0 :: tl) PCR_INIT_VALUE h with ⟨a, ha⟩
  exact ⟨a, e0.pcr, by simp [Pcr.compile_from, ha]⟩

/-- Witness for C8 at the test's input shape: registers 4 and 7 mixed. -/
theorem claim_C8_witness :
    ∃ a b, Pcr.compile_from (fun l => [l.length])
      [⟨"FOOBAR", 4, [1], 1⟩, ⟨"BARFOO", 7, [2], 2⟩] =
      .error (.mismatchedRegister a b) := by
  rcases claim_C8_mismatched_register (fun l => [l.length])
    ⟨"FOOBAR", 4, [1], 1⟩ [⟨"BARFOO", 7, [2], 2⟩]
    ⟨⟨"BARFOO", 7, [2], 2⟩, by decide, by decide⟩
    with ⟨a, b, hab⟩
  exact ⟨a, b, hab⟩

lemma land_self (a : Nat) : a &&& a = a := by
  apply Nat.eq_of_testBit_eq
  intro i
  simp [Nat.testBit_land]

lemma submask_lor (a b c : Nat) (h : a &&& b = a) : a &&& (b ||| c) = a := by
  apply Nat.eq_of_testBit_eq
  intro i
  have hh := congrArg (fun x => Nat.testBit x i) h
  simp only [Nat.testBit_land, Nat.testBit_lor] at *
  cases ha : a.testBit i <;> cases hb : b.testBit i <;> simp_all

lemma getD_set (l : List Nat) (i j a d : Nat) :
    (l.set i a).getD j d = if i = j ∧ i < l.length then a else l.getD j d := by
  rcases Decidable.em (i = j) with h | h
  · subst h
    by_cases hl : i < l.length
    · simp [List.getD_eq_getElem?_getD, List.getElem?_set_self, hl]
    · simp [List.getD_eq_getElem?_getD, hl, List.getElem?_set,
        List.getElem?_eq_none (le_of_not_lt hl)]
  · simp [List.getD_eq_getElem?_getD, List.getElem?_set_ne h, h]

lemma ownershipGrows_refl (g : List Nat) : ownershipGrows g g :=
  fun _ => land_self _

lemma ownershipGrows_set (g gm : List Nat) (i eg : Nat) (h : ownershipGrows g gm) :
    ownershipGrows g (gm.set i (gm.getD i 0 ||| eg)) := by
  intro j
  rw [getD_set]
  by_cases hij : i = j ∧ i < gm.length
  · rw [if_pos hij]
    rcases hij with ⟨rfl, _⟩
    exact submask_lor _ _ _ (h i)
  · rw [if_neg hij]
    exact h j

lemma updateDivAt_grows (g : List Nat) (divs : List (TPMEvent × List Nat)) (d i eg : Nat)
    (h : ∀ dv ∈ divs, ownershipGrows g dv.2) :
    ∀ dv ∈ updateDivAt divs d i eg, ownershipGrows g dv.2 := by
  intro dv hdv
  unfold updateDivAt at hdv
  cases hEl : divs[d]? with
  | none => rw [hEl] at hdv; exact h dv hdv
  | some q =>
    rcases q with ⟨ev, gm⟩
    rw [hEl] at hdv
    rcases List.mem_or_eq_of_mem_set hdv with h1 | h1
    · exact h dv h1
    · rw [h1]
      exact ownershipGrows_set g gm i eg (h (ev, gm) (List.getElem?_mem hEl))

lemma subtree_step_divs_grow (groups : List Nat) (eg : Nat) (st : LoopSt)
    (p : Nat × Option TPMEvent) (h : ∀ dv ∈ st.divs, ownershipGrows groups dv.2) :
    ∀ dv ∈ (subtree_step groups eg st p).divs, ownershipGrows groups dv.2 := by
  rcases p with ⟨i, o⟩
  cases o with
  | none => simpa [subtree_step] using h
  | some ev =>
    simp only [subtree_step]
    by_cases hc : can_own i groups eg
    · cases hfind : st.events_added.find? (fun q => q.1 == ev) with
      | none =>
        simp only [hc, if_true, hfind]
        apply updateDivAt_grows
        intro dv hdv
        rcases List.mem_append.mp hdv with h1 | h1
        · exact h dv h1
        · rcases List.mem_singleton.mp h1 with rfl
          exact ownershipGrows_refl groups
      | some q =>
        rcases q with ⟨e, gids, d⟩
        simp only [hc, if_true, hfind]
        exact updateDivAt_grows groups st.divs d i eg h
    · by_cases hp : other_owns_partially i groups eg && !other_owns_fully i groups eg
      · simpa [hc, hp] using h
      · simpa [hc, hp] using h

lemma loop_divs_grow (groups : List Nat) (eg : Nat) :
    ∀ (l : List (Nat × Option TPMEvent)) (st : LoopSt),
      (∀ dv ∈ st.divs, ownershipGrows groups dv.2) →
      ∀ dv ∈ (l.foldl (subtree_step groups eg) st).divs, ownershipGrows groups dv.2 := by
  intro l
  induction l with
  | nil => intro st h; simpa using h
  | cons p t ih =>
    intro st h
    simp only [List.foldl_cons]
    exact ih _ (subtree_step_divs_grow groups eg st p h)

lemma subtree_step_conflicts (groups : List Nat) (eg : Nat) (st : LoopSt)
    (p : Nat × Option TPMEvent) :
    (subtree_step groups eg st p).conflicts =
      st.conflicts ++ (if conflictCond groups eg p then [p.1] else []) := by
  rcases p with ⟨i, o⟩
  cases o with
  | none => simp [subtree_step, conflictCond]
  | some ev =>
    simp only [subtree_step, conflictCond]
    by_cases hc : can_own i groups eg
    · cases hfind : st.events_added.find? (fun q => q.1 == ev) with
      | none => simp [hc, hfind]
      | some q => rcases q with ⟨e, gids, d⟩; simp [hc, hfind]
    · by_cases hp : other_owns_partially i groups eg && !other_owns_fully i groups eg
      · simp [hc, hp]
      · simp only [hc, if_false]
        rw [if_neg hp]
        simp [Option.isSome, hc, hp]

lemma loop_conflicts (groups : List Nat) (eg : Nat) :
    ∀ (l : List (Nat × Option TPMEvent)) (st : LoopSt),
      (l.foldl (subtree_step groups eg) st).conflicts =
        st.conflicts ++ (l.filter (conflictCond groups eg)).map Prod.fst := by
  intro l
  induction l with
  | nil => intro st; simp
  | cons p t ih =>
    intro st
    simp only [List.foldl_cons, ih, subtree_step_conflicts, List.filter_cons]
    by_cases h : conflictCond groups eg p
    · simp [h]
    · simp [h]

lemma subtree_step_required (groups : List Nat) (eg : Nat) (st : LoopSt)
    (p : Nat × Option TPMEvent) :
    (subtree_step groups eg st p).event_required = (st.event_required && p.2.isSome) := by
  rcases p with ⟨i, o⟩
  cases o with
  | none => simp [subtree_step]
  | some ev =>
    simp only [subtree_step]
    by_cases hc : can_own i groups eg
    · cases hfind : st.events_added.find? (fun q => q.1 == ev) with
      | none => simp [hc, hfind]
      | some q => rcases q with ⟨e, gids, d⟩; simp [hc, hfind]
    · by_cases hp : other_owns_partially i groups eg && !other_owns_fully i groups eg
      · simp [hc, hp]
      · simp [hc, hp]

lemma loop_required (groups : List Nat) (eg : Nat) :
    ∀ (l : List (Nat × Option TPMEvent)) (st : LoopSt),
      (l.foldl (subtree_step groups eg) st).event_required =
        (st.event_required && l.all (fun p => p.2.isSome)) := by
  intro l
  induction l with
  | nil => intro st; simp
  | cons p t ih =>
    intro st
    simp only [List.foldl_cons, ih, subtree_step_required, List.all_cons, Bool.and_assoc]

/-- Claim C9: along every branch the ownership bitmask vector only grows:
every divergence recorded for an identifier (the state passed to the
recursive call on the successor) contains, entry by entry, all group
bits of the incoming ownership vector. -/
theorem claim_C9_ownership_monotone (groups : List Nat) (event_groups : Nat)
    (opts : List (Option TPMEvent)) (dv : TPMEvent × List Nat)
    (h : dv ∈ divsFinal groups event_groups opts) :
    ownershipGrows groups dv.2 := by
  unfold divsFinal at h
  by_cases hc : ((subtree_loop groups event_groups opts).events_added.length == 1 &&
      (subtree_loop groups event_groups opts).event_required) = true
  · rw [if_pos hc] at h
    rcases List.mem_map.mp h with ⟨q, _, rfl⟩
    exact ownershipGrows_refl groups
  · rw [if_neg hc] at h
    exact loop_divs_grow groups event_groups opts.enum loopInit (by simp [loopInit]) dv h

/-- Witness for C9: a concrete two-image divergence whose recorded mask
vector contains the incoming (all-zero) ownership vector. -/
theorem claim_C9_witness :
    ownershipGrows [0, 0] ((⟨"E1", 4, [10], 1⟩, [1, 0]) : TPMEvent × List Nat).2 := by
  apply claim_C9_ownership_monotone [0, 0] 1
    [some ⟨"E1", 4, [10], 1⟩, some ⟨"E1", 4, [11], 1⟩]
  decide

/-- Claim C4: whenever some image supplies an event it may not own while
another image partially — but no image fully — holds the identifier's
group bits, `event_subtree` aborts with the group-conflict panic
(`NEW EVENT GROUP DETECTION ALG`) instead of producing a result. -/
theorem claim_C4_group_conflict_aborts (gmaskOf : Nat → Nat)
    (event_maps : List (Nat → Option TPMEvent)) (event_id : Nat) (rest : List Nat)
    (groups : List Nat)
    (h : ∃ i m, event_maps[i]? = some m ∧ (m event_id).isSome = true ∧
          can_own i groups (gmaskOf event_id) = false ∧
          other_owns_partially i groups (gmaskOf event_id) = true ∧
          other_owns_fully i groups (gmaskOf event_id) = false) :
    event_subtree gmaskOf event_maps (event_id :: rest) groups =
      .error .newEventGroupAlg := by
  rcases h with ⟨i, m, hm, hsome, hcan, hpart, hfull⟩
  set opts := event_maps.map (fun f => f event_id) with hopts
  have hmem : (i, m event_id) ∈ opts.enum := by
    rw [List.mk_mem_enum_iff_getElem?, hopts, List.getElem?_map, hm]
    rfl
  have hcond : conflictCond groups (gmaskOf event_id) (i, m event_id) = true := by
    simp [conflictCond, hsome, hcan, hpart, hfull]
  have hne : (subtree_loop groups (gmaskOf event_id) opts).conflicts ≠ [] := by
    have hi : i ∈ (opts.enum.filter (conflictCond groups (gmaskOf event_id))).map Prod.fst :=
      List.mem_map_of_mem Prod.fst (List.mem_filter.mpr ⟨hmem, hcond⟩)
    rw [subtree_loop, loop_conflicts]
    simpa [loopInit] using List.ne_nil_of_mem hi
  have hempty : (subtree_loop groups (gmaskOf event_id) opts).conflicts.isEmpty = false := by
    rw [List.isEmpty_eq_false]
    exact hne
  simp only [event_subtree, hopts, hempty, Bool.false_eq_true, if_false]

/-- Witness for C4: image 0 supplies an event whose group mask 3 it may
not own because image 1 partially (bit 1) but not fully owns it. -/
theorem claim_C4_witness :
    event_subtree (fun i => if i = 2 then 3 else 0)
      [tpm_event_id_hashmap [⟨"E2", 4, [8], 2⟩], tpm_event_id_hashmap []]
      [2] [0, 1] = .error .newEventGroupAlg :=
  claim_C4_group_conflict_aborts _ _ _ _ _
    ⟨0, tpm_event_id_hashmap [⟨"E2", 4, [8], 2⟩], rfl, rfl, rfl, rfl, rfl⟩

/-- Claim C10: `combine` applied to zero candidate images never returns
an empty solution list: with a non-empty canonical order the first
identifier is treated as required with zero divergences and the engine
panics with the event-group-conflict abort; with an empty order the
root-successor `unwrap()` panics. -/
theorem claim_C10_empty_images_panics (H : List Nat → List Nat) (gmaskOf : Nat → Nat)
    (event_id : Nat) (rest : List Nat) :
    combine H gmaskOf (event_id :: rest) [] = .error .eventGroupConflict ∧
    combine H gmaskOf [] [] = .error .rootNextUnwrap :=
  ⟨rfl, rfl⟩

lemma enumFrom_all_snd {α : Type} (f : α → Bool) :
    ∀ (l : List α) (n : Nat), (l.enumFrom n).all (fun p => f p.2) = l.all f := by
  intro l
  induction l with
  | nil => intro n; rfl
  | cons a t ih => intro n; simp [List.enumFrom, List.all_cons, ih]

lemma enum_all_snd {α : Type} (l : List α) (f : α → Bool) :
    l.enum.all (fun p => f p.2) = l.all f :=
  enumFrom_all_snd f l 0

/-- Claim C5 (amended): `event_required` holds iff every image supplied a
value; with zero divergences the engine aborts when all images supplied
a value, and silently skips to the successor with unchanged ownership
when no conflict was flagged and at least one image supplied nothing —
even if some other image did supply a value. -/
theorem claim_C5_required_and_skip (gmaskOf : Nat → Nat)
    (event_maps : List (Nat → Option TPMEvent)) (event_id : Nat) (rest : List Nat)
    (groups : List Nat) :
    ((subtree_loop groups (gmaskOf event_id)
        (event_maps.map (fun m => m event_id))).event_required
      = (event_maps.map (fun m => m event_id)).all Option.isSome)
    ∧ (divsFinal groups (gmaskOf event_id) (event_maps.map (fun m => m event_id)) = [] →
        (event_maps.map (fun m => m event_id)).all Option.isSome = true →
        ∃ er, event_subtree gmaskOf event_maps (event_id :: rest) groups = .error er)
    ∧ (divsFinal groups (gmaskOf event_id) (event_maps.map (fun m => m event_id)) = [] →
        (subtree_loop groups (gmaskOf event_id)
          (event_maps.map (fun m => m event_id))).conflicts = [] →
        (event_maps.map (fun m => m event_id)).all Option.isSome = false →
        event_subtree gmaskOf event_maps (event_id :: rest) groups
          = event_subtree gmaskOf event_maps rest groups) := by
  have hreq : (subtree_loop groups (gmaskOf event_id)
      (event_maps.map (fun m => m event_id))).event_required
      = (event_maps.map (fun m => m event_id)).all Option.isSome := by
    rw [subtree_loop, loop_required]
    simp only [loopInit, Bool.true_and]
    exact enum_all_snd _ Option.isSome
  refine ⟨hreq, ?_, ?_⟩
  · intro hdivs hall
    by_cases hc : (subtree_loop groups (gmaskOf event_id)
        (event_maps.map (fun m => m event_id))).conflicts.isEmpty
    · refine ⟨.eventGroupConflict, ?_⟩
      simp only [event_subtree, hc, if_true, hdivs, List.isEmpty_nil, hreq, hall]
    · refine ⟨.newEventGroupAlg, ?_⟩
      rw [Bool.not_eq_true] at hc
      simp only [event_subtree, hc, Bool.false_eq_true, if_false]
  · intro hdivs hconf hall
    have hc : (subtree_loop groups (gmaskOf event_id)
        (event_maps.map (fun m => m event_id))).conflicts.isEmpty = true := by
      rw [hconf]; rfl
    simp only [event_subtree, hc, if_true, hdivs, List.isEmpty_nil, hreq, hall,
      Bool.false_eq_true, if_false]

/-- Counterexample to C5 as stated: at identifier 1 image 0 supplies an
event (so the identifier is "required" in the claim's sense) and zero
divergences are recorded, yet the engine does not signal a fatal error —
it silently skips (image 1 supplied nothing, so the code's
`event_required` flag is false).  The final conjunct exhibits the same
silent skip in a full reachable `combine` run: image 0 supplies only
identifier 2 and image 1 only identifier 1, both in group bit 1; the
run returns a solution that simply omits image 0's event instead of
signalling anything. -/
theorem claim_C5_counterexample :
    event_subtree (fun i => if i = 1 then 1 else 0)
      [tpm_event_id_hashmap [⟨"E1", 4, [7], 1⟩], tpm_event_id_hashmap []] [1] [0, 1]
      = .ok none
    ∧ tpm_event_id_hashmap [⟨"E1", 4, [7], 1⟩] 1 = some ⟨"E1", 4, [7], 1⟩
    ∧ divsFinal [0, 1] 1 [some ⟨"E1", 4, [7], 1⟩, none] = []
    ∧ combine (fun l => [l.length])
        (fun i => if i = 1 then 1 else if i = 2 then 1 else 0) [1, 2]
        [[⟨"B", 4, [8], 2⟩], [⟨"A", 4, [7], 1⟩]] =
        .ok [[⟨4, (fun l : List Nat => [l.length]) (PCR_INIT_VALUE ++ [7]),
          [⟨"A", [7]⟩]⟩]] :=
  ⟨rfl, rfl, rfl, rfl⟩

/-- Witness for the amended C5: a concrete silent skip with unchanged
ownership state while image 0 did supply a value. -/
theorem claim_C5_witness :
    event_subtree (fun i => if i = 5 then 1 else 0)
      [tpm_event_id_hashmap [⟨"W", 4, [3], 5⟩], tpm_event_id_hashmap []] [5, 6] [0, 1]
      = event_subtree (fun i => if i = 5 then 1 else 0)
        [tpm_event_id_hashmap [⟨"W", 4, [3], 5⟩], tpm_event_id_hashmap []] [6] [0, 1] :=
  (claim_C5_required_and_skip (fun i => if i = 5 then 1 else 0)
    [tpm_event_id_hashmap [⟨"W", 4, [3], 5⟩], tpm_event_id_hashmap []]
    5 [6] [0, 1]).2.2 rfl rfl rfl

lemma loop_single_value (groups : List Nat) (eg : Nat) (v : TPMEvent) :
    ∀ (l : List (Nat × Option TPMEvent)) (st : LoopSt),
      (∀ p ∈ l, p.2 = some v) →
      (∀ p ∈ l, can_own p.1 groups eg = true ∨
          other_owns_partially p.1 groups eg = false ∨
          other_owns_fully p.1 groups eg = true) →
      st.conflicts = [] → st.event_required = true →
      ((st.events_added = [] ∧ st.divs = []) ∨
        (∃ gids m, st.events_added = [(v, (gids, 0))] ∧ st.divs = [(v, m)])) →
      ((l.foldl (subtree_step groups eg) st).conflicts = [] ∧
        (l.foldl (subtree_step groups eg) st).event_required = true ∧
        (((l.foldl (subtree_step groups eg) st).events_added = [] ∧
            (l.foldl (subtree_step groups eg) st).divs = []) ∨
          (∃ gids m, (l.foldl (subtree_step groups eg) st).events_added = [(v, (gids, 0))] ∧
            (l.foldl (subtree_step groups eg) st).divs = [(v, m)])) ∧
        ((st.events_added ≠ [] ∨ ∃ p ∈ l, can_own p.1 groups eg = true) →
          (l.foldl (subtree_step groups eg) st).events_added ≠ [])) := by
  intro l
  induction l with
  | nil =>
    intro st _ _ hcf hrq hinv
    refine ⟨hcf, hrq, hinv, ?_⟩
    rintro (h | ⟨p, hp, _⟩)
    · exact h
    · cases hp
  | cons p t ih =>
    intro st hv hnc hcf hrq hinv
    rcases p with ⟨i, o⟩
    have ho : o = some v := hv (i, o) (List.mem_cons_self _ _)
    subst ho
    have hvt : ∀ q ∈ t, q.2 = some v := fun q hq => hv q (List.mem_cons_of_mem _ hq)
    have hnct : ∀ q ∈ t, can_own q.1 groups eg = true ∨
        other_owns_partially q.1 groups eg = false ∨
        other_owns_fully q.1 groups eg = true :=
      fun q hq => hnc q (List.mem_cons_of_mem _ hq)
    simp only [List.foldl_cons]
    by_cases hc : can_own i groups eg = true
    · rcases hinv with ⟨hea, hdv⟩ | ⟨gids, m, hea, hdv⟩
      · have hstep : subtree_step groups eg st (i, some v) =
            { st with
              events_added := [(v, ([i], 0))],
              divs := [(v, groups.set i (groups.getD i 0 ||| eg))] } := by
          simp [subtree_step, hc, hea, hdv, updateDivAt]
        rw [hstep]
        have hres := ih
          ({ st with
             events_added := [(v, ([i], 0))],
             divs := [(v, groups.set i (groups.getD i 0 ||| eg))] })
          hvt hnct hcf hrq
          (Or.inr ⟨[i], groups.set i (groups.getD i 0 ||| eg), rfl, rfl⟩)
        exact ⟨hres.1, hres.2.1, hres.2.2.1, fun _ => hres.2.2.2 (Or.inl (by simp))⟩
      · have hstep : subtree_step groups eg st (i, some v) =
            { st with
              events_added := [(v, (gids ++ [i], 0))],
              divs := [(v, m.set i (m.getD i 0 ||| eg))] } := by
          simp [subtree_step, hc, hea, hdv, updateDivAt, List.find?]
        rw [hstep]
        have hres := ih
          ({ st with
             events_added := [(v, (gids ++ [i], 0))],
             divs := [(v, m.set i (m.getD i 0 ||| eg))] })
          hvt hnct hcf hrq
          (Or.inr ⟨gids ++ [i], m.set i (m.getD i 0 ||| eg), rfl, rfl⟩)
        exact ⟨hres.1, hres.2.1, hres.2.2.1, fun _ => hres.2.2.2 (Or.inl (by simp))⟩
    · have hstep : subtree_step groups eg st (i, some v) = st := by
        rcases hnc (i, some v) (List.mem_cons_self _ _) with h1 | h1 | h1
        · exact absurd h1 hc
        · simp [subtree_step, hc, h1]
        · simp [subtree_step, hc, h1]
      rw [hstep]
      have hres := ih st hvt hnct hcf hrq hinv
      refine ⟨hres.1, hres.2.1, hres.2.2.1, ?_⟩
      rintro (h | ⟨q, hq, hqc⟩)
      · exact hres.2.2.2 (Or.inl h)
      · rcases List.mem_cons.mp hq with rfl | hq2
        · exact absurd hqc hc
        · exact hres.2.2.2 (Or.inr ⟨q, hq2, hqc⟩)

lemma event_subtree_cons (gmaskOf : Nat → Nat)
    (event_maps : List (Nat → Option TPMEvent)) (event_id : Nat) (rest : List Nat)
    (groups : List Nat) :
    event_subtree gmaskOf event_maps (event_id :: rest) groups =
      (if (subtree_loop groups (gmaskOf event_id)
            (event_maps.map (fun m => m event_id))).conflicts.isEmpty then
        if (divsFinal groups (gmaskOf event_id)
            (event_maps.map (fun m => m event_id))).isEmpty then
          if (subtree_loop groups (gmaskOf event_id)
              (event_maps.map (fun m => m event_id))).event_required then
            .error .eventGroupConflict
          else event_subtree gmaskOf event_maps rest groups
        else
          match rest with
          | [] => .ok none
          | _ :: _ => do
            let nodes ← (divsFinal groups (gmaskOf event_id)
                (event_maps.map (fun m => m event_id))).mapM (fun dv => do
              match ← event_subtree gmaskOf event_maps rest dv.2 with
              | some children => pure (EventNode.mk dv.1 children)
              | none => pure (EventNode.mk dv.1 []))
            pure (some nodes)
      else .error .newEventGroupAlg) := rfl

/-- Claim C6 (amended): when every image supplies the same single event
value for an identifier, at least one image may own it, and no supplying
image triggers the conflict push, the engine collapses everything into
one divergence carrying that value and recurses into the successor with
the incoming ownership state unchanged. -/
theorem claim_C6_unique_value_collapses (gmaskOf : Nat → Nat)
    (event_maps : List (Nat → Option TPMEvent)) (event_id succ : Nat)
    (rest' : List Nat) (groups : List Nat) (v : TPMEvent)
    (hall : ∀ m ∈ event_maps, m event_id = some v)
    (hown : ∃ i, i < event_maps.length ∧ can_own i groups (gmaskOf event_id) = true)
    (hnoc : ∀ i, i < event_maps.length →
        can_own i groups (gmaskOf event_id) = true ∨
        other_owns_partially i groups (gmaskOf event_id) = false ∨
        other_owns_fully i groups (gmaskOf event_id) = true) :
    event_subtree gmaskOf event_maps (event_id :: succ :: rest') groups =
      match event_subtree gmaskOf event_maps (succ :: rest') groups with
      | .error er => .error er
      | .ok none => .ok (some [EventNode.mk v []])
      | .ok (some cs) => .ok (some [EventNode.mk v cs]) := by
  set eg := gmaskOf event_id with heg
  set opts := event_maps.map (fun m => m event_id) with hopts
  have hlen : opts.length = event_maps.length := by rw [hopts, List.length_map]
  have f1 : ∀ p ∈ opts.enum, p.2 = some v := by
    intro p hp
    have h2 : p.2 ∈ opts := by
      have := List.mem_map_of_mem Prod.snd hp
      rwa [List.enum_map_snd] at this
    rcases List.mem_map.mp (hopts ▸ h2) with ⟨m, hm, hmv⟩
    rw [← hmv]
    exact hall m hm
  have hlt : ∀ p ∈ opts.enum, p.1 < event_maps.length := by
    intro p hp
    rcases p with ⟨i, o⟩
    rw [List.mk_mem_enum_iff_getElem?] at hp
    rcases List.getElem?_eq_some_iff.mp hp with ⟨hlt', _⟩
    exact hlen ▸ hlt'
  have f2 : ∀ p ∈ opts.enum, can_own p.1 groups eg = true ∨
      other_owns_partially p.1 groups eg = false ∨
      other_owns_fully p.1 groups eg = true :=
    fun p hp => hnoc p.1 (hlt p hp)
  have f3 : ∃ p ∈ opts.enum, can_own p.1 groups eg = true := by
    rcases hown with ⟨i, hi, hci⟩
    have hi' : i < opts.length := by rw [hlen]; exact hi
    exact ⟨(i, opts[i]), by rw [List.mk_mem_enum_iff_getElem?]; exact List.getElem?_eq_getElem hi',
      hci⟩
  have hres := loop_single_value groups eg v opts.enum loopInit f1 f2 rfl rfl
    (Or.inl ⟨rfl, rfl⟩)
  have hne := hres.2.2.2 (Or.inr f3)
  rcases hres.2.2.1 with ⟨hea, _⟩ | ⟨gids, m, hea, hdv⟩
  · exact absurd hea hne
  · have hconf : (subtree_loop groups eg opts).conflicts = [] := hres.1
    have hreq : (subtree_loop groups eg opts).event_required = true := hres.2.1
    have heaL : (subtree_loop groups eg opts).events_added = [(v, (gids, 0))] := hea
    have hdivs : divsFinal groups eg opts = [(v, groups)] := by
      rw [divsFinal]
      simp only [heaL, hreq, List.length_cons, List.length_nil]
      rw [if_pos (by simp)]
      simp
    have hcE : (subtree_loop groups eg opts).conflicts.isEmpty = true := by
      rw [hconf]; rfl
    rw [event_subtree_cons, ← hopts, ← heg, hcE, if_pos rfl, hdivs]
    simp only [List.isEmpty_cons, Bool.false_eq_true, if_false]
    cases hrec : event_subtree gmaskOf event_maps (succ :: rest') groups with
    | error er =>
      simp only [List.mapM, List.mapM.loop, hrec]
      rfl
    | ok o =>
      cases o with
      | none =>
        simp only [List.mapM, List.mapM.loop, hrec]
        rfl
      | some cs =>
        simp only [List.mapM, List.mapM.loop, hrec]
        rfl

/-- Counterexample to C6 as stated: exactly one distinct event value is
supplied across the images at identifier 1 (by image 0), yet the engine
records no divergence at all and produces no node carrying that value —
it silently skips the identifier.  The last conjunct shows the same
behaviour inside a full reachable `combine` run: identifier 4 carries
exactly one distinct supplied value, yet no divergence with that value
appears in any solution. -/
theorem claim_C6_counterexample :
    event_subtree (fun i => if i = 1 then 1 else 0)
      [tpm_event_id_hashmap [⟨"V", 4, [9], 1⟩], tpm_event_id_hashmap []] [1, 2] [0, 1]
      = .ok none
    ∧ divsFinal [0, 1] 1 [some ⟨"V", 4, [9], 1⟩, none] = []
    ∧ combine (fun l => [l.length])
        (fun i => if i = 3 then 1 else if i = 4 then 1 else 0) [3, 4]
        [[⟨"D", 5, [6], 4⟩], [⟨"C", 5, [5], 3⟩]] =
        .ok [[⟨5, (fun l : List Nat => [l.length]) (PCR_INIT_VALUE ++ [5]),
          [⟨"C", [5]⟩]⟩]] :=
  ⟨rfl, rfl, rfl⟩

/-- Witness for the amended C6: two images agreeing on one value at
identifier 7 produce the single collapsed node with unchanged state. -/
theorem claim_C6_witness :
    event_subtree (fun i => if i = 7 then 1 else 0)
      [tpm_event_id_hashmap [⟨"V", 4, [5], 7⟩], tpm_event_id_hashmap [⟨"V", 4, [5], 7⟩]]
      [7, 8] [0, 0]
      = .ok (some [EventNode.mk ⟨"V", 4, [5], 7⟩ []]) := by
  have h := claim_C6_unique_value_collapses (fun i => if i = 7 then 1 else 0)
    [tpm_event_id_hashmap [⟨"V", 4, [5], 7⟩], tpm_event_id_hashmap [⟨"V", 4, [5], 7⟩]]
    7 8 [] [0, 0] ⟨"V", 4, [5], 7⟩
    (by
      intro m hm
      rcases List.mem_cons.mp hm with rfl | hm2
      · rfl
      · rcases List.mem_cons.mp hm2 with rfl | h3
        · rfl
        · cases h3)
    ⟨0, by simp, rfl⟩
    (by
      intro i hi
      left
      simp only [List.length_cons, List.length_nil] at hi
      interval_cases i <;> rfl)
  exact h.trans rfl

lemma uniqueAux_subset {α : Type} [DecidableEq α] :
    ∀ (l seen : List α) (x : α), x ∈ uniqueAux seen l → x ∈ l := by
  intro l
  induction l with
  | nil => intro seen x h; cases h
  | cons a t ih =>
    intro seen x h
    rw [uniqueAux] at h
    by_cases ha : a ∈ seen
    · rw [if_pos ha] at h
      exact List.mem_cons_of_mem a (ih seen x h)
    · rw [if_neg ha] at h
      rcases List.mem_cons.mp h with rfl | h2
      · exact List.mem_cons_self x t
      · exact List.mem_cons_of_mem a (ih (a :: seen) x h2)

lemma mapM_ok {α β : Type} (f : α → Except PcrError β) (g : α → β) :
    ∀ (l : List α), (∀ x ∈ l, f x = .ok (g x)) → l.mapM f = .ok (l.map g) := by
  intro l
  induction l with
  | nil => intro _; rfl
  | cons a t ih =>
    intro h
    rw [List.mapM_cons, h a (List.mem_cons_self a t),
      ih (fun x hx => h x (List.mem_cons_of_mem a hx))]
    rfl

lemma compile_group_ok (H : List Nat → List Nat) (events : List TPMEvent) (n : Nat)
    (hn : n ∈ events.map (fun e => e.pcr)) :
    Pcr.compile_from H (events.filter (fun e => e.pcr == n)) =
      .ok (registerGroupPcr H n events) := by
  rcases List.mem_map.mp hn with ⟨e, he, hen⟩
  have heg : e ∈ events.filter (fun e => e.pcr == n) :=
    List.mem_filter.mpr ⟨he, by simp [hen]⟩
  cases hg : events.filter (fun e => e.pcr == n) with
  | nil => rw [hg] at heg; cases heg
  | cons e0 tl =>
    have h0 : e0 ∈ events.filter (fun e => e.pcr == n) := by
      rw [hg]; exact List.mem_cons_self e0 tl
    have h0n : e0.pcr = n := by
      have := (List.mem_filter.mp h0).2
      simpa using this
    have hall : ∀ x ∈ e0 :: tl, x.pcr = e0.pcr := by
      intro x hx
      rw [← hg] at hx
      have := (List.mem_filter.mp hx).2
      rw [h0n]
      simpa using this
    rw [Pcr.compile_from]
    rw [compile_fold_ok H e0.pcr (e0 :: tl) PCR_INIT_VALUE hall]
    simp only [registerGroupPcr, hg, h0n, Bind.bind, Except.bind]
    rfl

/-- Claim C7: `compile_pcrs` produces one register per distinct register
number in first-seen order, each equal to the result of calling
`Pcr::compile_from` on the manually filtered (order-preserving) group of
that register's events — and those per-group compilations succeed. -/
theorem claim_C7_compile_registers_partition (H : List Nat → List Nat)
    (events : List TPMEvent) :
    compile_pcrs H events =
      .ok ((uniqueList (events.map (fun e => e.pcr))).map
        (fun n => registerGroupPcr H n events))
    ∧ ∀ n ∈ uniqueList (events.map (fun e => e.pcr)),
        Pcr.compile_from H (events.filter (fun e => e.pcr == n)) =
          .ok (registerGroupPcr H n events) := by
  have hmem : ∀ n ∈ uniqueList (events.map (fun e => e.pcr)),
      Pcr.compile_from H (events.filter (fun e => e.pcr == n)) =
        .ok (registerGroupPcr H n events) := by
    intro n hn
    exact compile_group_ok H events n (uniqueAux_subset _ [] n hn)
  exact ⟨mapM_ok _ _ _ hmem, hmem⟩

/-- Witness for C7 at the test's heterogeneous input: registers 4 and 7
produce their two independently compiled registers in first-seen order. -/
theorem claim_C7_witness :
    compile_pcrs (fun l => [l.length])
      [⟨"FOOBAR", 4, [1], 1⟩, ⟨"BARFOO", 7, [2], 2⟩] =
      .ok [registerGroupPcr (fun l => [l.length]) 4
             [⟨"FOOBAR", 4, [1], 1⟩, ⟨"BARFOO", 7, [2], 2⟩],
           registerGroupPcr (fun l => [l.length]) 7
             [⟨"FOOBAR", 4, [1], 1⟩, ⟨"BARFOO", 7, [2], 2⟩]] :=
  (claim_C7_compile_registers_partition (fun l => [l.length])
    [⟨"FOOBAR", 4, [1], 1⟩, ⟨"BARFOO", 7, [2], 2⟩]).1

lemma event_subtree_cons_eval (gmaskOf : Nat → Nat)
    (event_maps : List (Nat → Option TPMEvent)) (event_id : Nat) (rest : List Nat)
    (groups : List Nat) (ST : LoopSt) (DF : List (TPMEvent × List Nat))
    (hst : subtree_loop groups (gmaskOf event_id)
      (event_maps.map (fun m => m event_id)) = ST)
    (hdf : divsFinal groups (gmaskOf event_id)
      (event_maps.map (fun m => m event_id)) = DF) :
    event_subtree gmaskOf event_maps (event_id :: rest) groups =
      (if ST.conflicts.isEmpty then
        if DF.isEmpty then
          if ST.event_required then .error .eventGroupConflict
          else event_subtree gmaskOf event_maps rest groups
        else
          match rest with
          | [] => .ok none
          | _ :: _ => do
            let nodes ← DF.mapM (fun dv => do
              match ← event_subtree gmaskOf event_maps rest dv.2 with
              | some children => pure (EventNode.mk dv.1 children)
              | none => pure (EventNode.mk dv.1 []))
            pure (some nodes)
      else .error .newEventGroupAlg) := by
  rw [event_subtree_cons, hst, hdf]

/-- Counterexample to C3 as stated: the two identifiers' group masks 1
and 3 share the nonzero bit 1, image A supplies both events, image B
supplies both with differing values, yet `combine` panics with the
group-conflict abort instead of returning the two unmixed solutions
(mask 3 is not contained in mask 1, so in the all-A branch image B's
second event is flagged as a conflict). -/
theorem claim_C3_counterexample :
    combine (fun l => [l.length])
      (fun i => if i = 1 then 1 else if i = 2 then 3 else 0) [1, 2, 3]
      [[⟨"E1", 4, [10], 1⟩, ⟨"E2", 4, [20], 2⟩],
       [⟨"E1", 4, [11], 1⟩, ⟨"E2", 4, [21], 2⟩]] =
      .error .newEventGroupAlg := rfl

set_option maxHeartbeats 1600000 in
/-- Claim C3 (amended): for two images that agree on no identifier of
the shared group — both identifiers carrying the same group mask (bit 1)
and followed by an unsupplied successor — `combine` returns exactly two
solutions: the all-A hash chain and the all-B hash chain, never a mixed
one. -/
theorem claim_C3_group_coherent_solutions (H : List Nat → List Nat)
    (x1 x2 y1 y2 : List Nat) (hxy1 : x1 ≠ y1) (_hxy2 : x2 ≠ y2) :
    combine H (fun i => if i = 1 then 1 else if i = 2 then 1 else 0) [1, 2, 3]
      [[⟨"E1", 4, x1, 1⟩, ⟨"E2", 4, x2, 2⟩], [⟨"E1", 4, y1, 1⟩, ⟨"E2", 4, y2, 2⟩]] =
      .ok [[⟨4, H (H (PCR_INIT_VALUE ++ x1) ++ x2), [⟨"E1", x1⟩, ⟨"E2", x2⟩]⟩],
           [⟨4, H (H (PCR_INIT_VALUE ++ y1) ++ y2), [⟨"E1", y1⟩, ⟨"E2", y2⟩]⟩]] := by
  have hne : ((⟨"E1", 4, x1, 1⟩ : TPMEvent) == ⟨"E1", 4, y1, 1⟩) = false := by
    simp [TPMEvent.mk.injEq, hxy1]
  have hst1 : subtree_loop [0, 0] ((fun i => if i = 1 then 1 else if i = 2 then 1 else 0) 1)
      (List.map (fun m => m 1)
        [tpm_event_id_hashmap [⟨"E1", 4, x1, 1⟩, ⟨"E2", 4, x2, 2⟩],
         tpm_event_id_hashmap [⟨"E1", 4, y1, 1⟩, ⟨"E2", 4, y2, 2⟩]]) =
      ⟨[(⟨"E1", 4, x1, 1⟩, [1, 0]), (⟨"E1", 4, y1, 1⟩, [0, 1])],
       [(⟨"E1", 4, x1, 1⟩, ([0], 0)), (⟨"E1", 4, y1, 1⟩, ([1], 1))], [], true⟩ := by
    show List.foldl (subtree_step [0, 0] 1) loopInit
      [(0, some (⟨"E1", 4, x1, 1⟩ : TPMEvent)), (1, some (⟨"E1", 4, y1, 1⟩ : TPMEvent))] = _
    rw [List.foldl_cons, List.foldl_cons, List.foldl_nil]
    rw [show subtree_step [0, 0] 1 loopInit (0, some (⟨"E1", 4, x1, 1⟩ : TPMEvent)) =
      ⟨[(⟨"E1", 4, x1, 1⟩, [1, 0])], [(⟨"E1", 4, x1, 1⟩, ([0], 0))], [], true⟩ by
        simp only [subtree_step]
        rw [show can_own 0 [0, 0] 1 = true from rfl]
        simp only [if_true, List.find?_nil]
        rfl]
    simp only [subtree_step]
    rw [show can_own 1 [0, 0] 1 = true from rfl]
    simp only [if_true]
    rw [List.find?_cons_of_neg _ (by simpa using hne), List.find?_nil]
    rfl
  have hdf1 : divsFinal [0, 0] ((fun i => if i = 1 then 1 else if i = 2 then 1 else 0) 1)
      (List.map (fun m => m 1)
        [tpm_event_id_hashmap [⟨"E1", 4, x1, 1⟩, ⟨"E2", 4, x2, 2⟩],
         tpm_event_id_hashmap [⟨"E1", 4, y1, 1⟩, ⟨"E2", 4, y2, 2⟩]]) =
      [(⟨"E1", 4, x1, 1⟩, [1, 0]), (⟨"E1", 4, y1, 1⟩, [0, 1])] := by
    rw [divsFinal, hst1]
    rfl
  have htree1 : event_subtree (fun i => if i = 1 then 1 else if i = 2 then 1 else 0)
      [tpm_event_id_hashmap [⟨"E1", 4, x1, 1⟩, ⟨"E2", 4, x2, 2⟩],
       tpm_event_id_hashmap [⟨"E1", 4, y1, 1⟩, ⟨"E2", 4, y2, 2⟩]]
      [1, 2, 3] [0, 0] =
      .ok (some [EventNode.mk ⟨"E1", 4, x1, 1⟩ [EventNode.mk ⟨"E2", 4, x2, 2⟩ []],
                 EventNode.mk ⟨"E1", 4, y1, 1⟩ [EventNode.mk ⟨"E2", 4, y2, 2⟩ []]]) := by
    rw [event_subtree_cons_eval _ _ _ _ _ _ _ hst1 hdf1]
    with_unfolding_all rfl
  have hcomb : combine H (fun i => if i = 1 then 1 else if i = 2 then 1 else 0) [1, 2, 3]
      [[⟨"E1", 4, x1, 1⟩, ⟨"E2", 4, x2, 2⟩], [⟨"E1", 4, y1, 1⟩, ⟨"E2", 4, y2, 2⟩]] =
      .ok (uniqueList
        [[⟨4, H (H (PCR_INIT_VALUE ++ x1) ++ x2), [⟨"E1", x1⟩, ⟨"E2", x2⟩]⟩],
         [⟨4, H (H (PCR_INIT_VALUE ++ y1) ++ y2), [⟨"E1", y1⟩, ⟨"E2", y2⟩]⟩]]) := by
    have h0 : combine H (fun i => if i = 1 then 1 else if i = 2 then 1 else 0) [1, 2, 3]
        [[⟨"E1", 4, x1, 1⟩, ⟨"E2", 4, x2, 2⟩], [⟨"E1", 4, y1, 1⟩, ⟨"E2", 4, y2, 2⟩]] =
        (do
          match ← event_subtree (fun i => if i = 1 then 1 else if i = 2 then 1 else 0)
              [tpm_event_id_hashmap [⟨"E1", 4, x1, 1⟩, ⟨"E2", 4, x2, 2⟩],
               tpm_event_id_hashmap [⟨"E1", 4, y1, 1⟩, ⟨"E2", 4, y2, 2⟩]]
              [1, 2, 3] [0, 0] with
          | some st => do
            let sols ← (branchesAll st).mapM
              (fun b => (compile_pcrs H b).mapError CombineError.pcrPanic)
            pure (uniqueList sols)
          | none => pure []) := rfl
    rw [h0, htree1]
    with_unfolding_all rfl
  rw [hcomb]
  rw [show uniqueList
        [[(⟨4, H (H (PCR_INIT_VALUE ++ x1) ++ x2), [⟨"E1", x1⟩, ⟨"E2", x2⟩]⟩ : Pcr)],
         [⟨4, H (H (PCR_INIT_VALUE ++ y1) ++ y2), [⟨"E1", y1⟩, ⟨"E2", y2⟩]⟩]] =
      [[(⟨4, H (H (PCR_INIT_VALUE ++ x1) ++ x2), [⟨"E1", x1⟩, ⟨"E2", x2⟩]⟩ : Pcr)],
       [⟨4, H (H (PCR_INIT_VALUE ++ y1) ++ y2), [⟨"E1", y1⟩, ⟨"E2", y2⟩]⟩]] by
    rw [uniqueList, uniqueAux, if_neg (List.not_mem_nil _), uniqueAux]
    rw [if_neg (by
      intro hmem
      rcases List.mem_singleton.mp hmem with heq
      simp [Pcr.mk.injEq, Part.mk.injEq] at heq
      exact hxy1 heq.2.1.symm)]
    rfl]

/-- Witness for the amended C3 at concrete distinct digests. -/
theorem claim_C3_witness :
    combine (fun l => [l.length])
      (fun i => if i = 1 then 1 else if i = 2 then 1 else 0) [1, 2, 3]
      [[⟨"E1", 4, [10], 1⟩, ⟨"E2", 4, [20], 2⟩],
       [⟨"E1", 4, [11], 1⟩, ⟨"E2", 4, [21], 2⟩]] =
      .ok [[⟨4, (fun l : List Nat => [l.length]) ((fun l : List Nat => [l.length])
                (PCR_INIT_VALUE ++ [10]) ++ [20]), [⟨"E1", [10]⟩, ⟨"E2", [20]⟩]⟩],
           [⟨4, (fun l : List Nat => [l.length]) ((fun l : List Nat => [l.length])
                (PCR_INIT_VALUE ++ [11]) ++ [21]), [⟨"E1", [11]⟩, ⟨"E2", [21]⟩]⟩]] :=
  claim_C3_group_coherent_solutions (fun l => [l.length]) [10] [20] [11] [21]
    (by decide) (by decide)

lemma mapM_nodes_loop (gmaskOf : Nat → Nat) (event_maps : List (Nat → Option TPMEvent))
    (order' : List Nat) :
    ∀ (divs : List (TPMEvent × List Nat)) (acc : List (EventNode TPMEvent)),
      List.mapM.loop (fun dv => do
          match ← event_subtree gmaskOf event_maps order' dv.2 with
          | some children => pure (EventNode.mk dv.1 children)
          | none => pure (EventNode.mk dv.1 [])) divs acc =
        match nodesFromDivs gmaskOf event_maps order' divs with
        | .error er => .error er
        | .ok ns => .ok (acc.reverse ++ ns) := by
  have main : ∀ (F : TPMEvent × List Nat → Except CombineError (EventNode TPMEvent)),
      (∀ dv, F dv = do
        match ← event_subtree gmaskOf event_maps order' dv.2 with
        | some children => pure (EventNode.mk dv.1 children)
        | none => pure (EventNode.mk dv.1 [])) →
      ∀ (divs : List (TPMEvent × List Nat)) (acc : List (EventNode TPMEvent)),
        List.mapM.loop F divs acc =
          match nodesFromDivs gmaskOf event_maps order' divs with
          | .error er => .error er
          | .ok ns => .ok (acc.reverse ++ ns) := by
    intro F hF divs
    induction divs with
    | nil =>
      intro acc
      simp [List.mapM.loop, nodesFromDivs, Pure.pure, Except.pure]
    | cons dv t ih =>
      intro acc
      rw [List.mapM.loop]
      cases hrec : event_subtree gmaskOf event_maps order' dv.2 with
      | error er =>
        have hFd : F dv = .error er := by rw [hF dv, hrec]; rfl
        rw [hFd, nodesFromDivs, hrec]
        rfl
      | ok o =>
        cases o with
        | none =>
          have hFd : F dv = .ok (EventNode.mk dv.1 []) := by rw [hF dv, hrec]; rfl
          rw [hFd]
          show List.mapM.loop F t (EventNode.mk dv.1 [] :: acc) = _
          rw [ih, nodesFromDivs, hrec]
          cases hn : nodesFromDivs gmaskOf event_maps order' t with
          | error er => rfl
          | ok ns =>
            show Except.ok ((EventNode.mk dv.1 [] :: acc).reverse ++ ns) =
              Except.ok (acc.reverse ++ (EventNode.mk dv.1 [] :: ns))
            simp
        | some cs =>
          have hFd : F dv = .ok (EventNode.mk dv.1 cs) := by rw [hF dv, hrec]; rfl
          rw [hFd]
          show List.mapM.loop F t (EventNode.mk dv.1 cs :: acc) = _
          rw [ih, nodesFromDivs, hrec]
          cases hn : nodesFromDivs gmaskOf event_maps order' t with
          | error er => rfl
          | ok ns =>
            show Except.ok ((EventNode.mk dv.1 cs :: acc).reverse ++ ns) =
              Except.ok (acc.reverse ++ (EventNode.mk dv.1 cs :: ns))
            simp
  exact main _ (fun dv => rfl)

lemma mapM_nodes_eq (gmaskOf : Nat → Nat) (event_maps : List (Nat → Option TPMEvent))
    (order' : List Nat) (divs : List (TPMEvent × List Nat)) :
    divs.mapM (fun dv => do
      match ← event_subtree gmaskOf event_maps order' dv.2 with
      | some children => pure (EventNode.mk dv.1 children)
      | none => pure (EventNode.mk dv.1 [])) =
    nodesFromDivs gmaskOf event_maps order' divs := by
  rw [List.mapM]
  rw [mapM_nodes_loop gmaskOf event_maps order' divs []]
  cases hn : nodesFromDivs gmaskOf event_maps order' divs with
  | error er => rfl
  | ok ns => simp

/-- Counterexample to C1 as stated: at the last identifier of the
canonical order a divergence is recorded (`divsFinal` is the singleton
below), yet `event_subtree` returns the sentinel `none` — the `?` on
`event_id.next()?` inside the node-building loop discards the node — and
so `combine` on one image whose only event sits at the final identifier
yields zero solutions. -/
theorem claim_C1_counterexample :
    divsFinal [0] 1 [some ⟨"E1", 4, [7], 1⟩] = [(⟨"E1", 4, [7], 1⟩, [0])]
    ∧ event_subtree (fun i => if i = 1 then 1 else 0)
        [tpm_event_id_hashmap [⟨"E1", 4, [7], 1⟩]] [1] [0] = .ok none
    ∧ combine (fun l => [l.length]) (fun i => if i = 1 then 1 else 0) [1]
        [[⟨"E1", 4, [7], 1⟩]] = .ok [] :=
  ⟨rfl, rfl, rfl⟩

/-- Claim C1 (amended): with no conflict flagged and a non-empty
divergence list, the engine at an identifier that still has a successor
builds exactly one node per divergence — holding its event value, with
children obtained by recursing into the successor order under that
divergence's ownership state — while at the last identifier of the
canonical order it instead returns the sentinel, discarding the
recorded divergences. -/
theorem claim_C1_nodes_built_per_divergence (gmaskOf : Nat → Nat)
    (event_maps : List (Nat → Option TPMEvent)) (event_id succ : Nat) (rest' : List Nat)
    (groups : List Nat)
    (hconf : (subtree_loop groups (gmaskOf event_id)
        (event_maps.map (fun m => m event_id))).conflicts = [])
    (hdf : divsFinal groups (gmaskOf event_id)
        (event_maps.map (fun m => m event_id)) ≠ []) :
    event_subtree gmaskOf event_maps [event_id] groups = .ok none
    ∧ event_subtree gmaskOf event_maps (event_id :: succ :: rest') groups =
        match nodesFromDivs gmaskOf event_maps (succ :: rest')
            (divsFinal groups (gmaskOf event_id)
              (event_maps.map (fun m => m event_id))) with
        | .error er => .error er
        | .ok ns => .ok (some ns) := by
  have hcE : (subtree_loop groups (gmaskOf event_id)
      (event_maps.map (fun m => m event_id))).conflicts.isEmpty = true := by
    rw [hconf]; rfl
  have hdfE : (divsFinal groups (gmaskOf event_id)
      (event_maps.map (fun m => m event_id))).isEmpty = false := by
    rw [List.isEmpty_eq_false]; exact hdf
  constructor
  · rw [event_subtree_cons]
    simp only [hcE, if_true, hdfE, Bool.false_eq_true, if_false]
  · rw [event_subtree_cons]
    simp only [hcE, if_true, hdfE, Bool.false_eq_true, if_false]
    rw [mapM_nodes_eq]
    cases hn : nodesFromDivs gmaskOf event_maps (succ :: rest')
        (divsFinal groups (gmaskOf event_id)
          (event_maps.map (fun m => m event_id))) with
    | error er => simp [hn, Bind.bind, Except.bind]
    | ok ns => simp [hn, Bind.bind, Except.bind, Pure.pure, Except.pure]

/-- Witness for the amended C1: a divergence at the final identifier is
recorded yet the engine returns the sentinel. -/
theorem claim_C1_witness :
    event_subtree (fun i => if i = 1 then 1 else 0)
      [tpm_event_id_hashmap [⟨"N", 4, [2], 1⟩]] [1] [0] = .ok none :=
  (claim_C1_nodes_built_per_divergence (fun i => if i = 1 then 1 else 0)
    [tpm_event_id_hashmap [⟨"N", 4, [2], 1⟩]] 1 3 [] [0] rfl (by decide)).1

end ComputePcrs
